import Mathlib

/-!
Verification of the modbus-d3 repository: the bit-level codec that packs
IEEE-754 bit patterns into boolean coil lists, the coil-bank writes of the
publisher, the HTTP/WebSocket relay error handling, and the logger handler
state machine.

Floating-point values are modelled by their IEEE-754 bit patterns: a
float64 value is a natural number below 2^64 and a float32 value a natural
number below 2^32.  The codec under verification never performs arithmetic
on the floats; it only moves their bit patterns between representations
(numpy `view` is the identity on patterns), so this embedding is exact.
-/

/-! ## Bit codec: encoding (server.py, update_coils) -/

/-- Binary digit characters of `n`, most significant first, accumulated into
`acc`.  Mirrors the repeated-division rendering of Python `format(n, "b")`;
the `fuel` argument only bounds the recursion and is always sufficient at
`n + 1`. -/
def binCharsAux : Nat → Nat → List Char → List Char
  | 0, _, acc => acc
  | fuel + 1, n, acc =>
      if n < 2 then (if n = 1 then '1' else '0') :: acc
      else binCharsAux fuel (n / 2) ((if n % 2 = 1 then '1' else '0') :: acc)

/-- Binary digit characters of `n`, most significant first, at least one
digit (`0` renders as "0"), exactly Python `format(n, "b")`. -/
def binChars (n : Nat) : List Char := binCharsAux (n + 1) n []

/-- Python zero-padded binary formatting `f"{n:0{width}b}"` as a character
list: the binary digits of `n` left-padded with `'0'` to `width`. -/
def pyBinFormat (width n : Nat) : List Char :=
  List.replicate (width - (binChars n).length) '0' ++ binChars n

/-- The list comprehension `[b == '1' for b in bstring]` from `update_coils`
applied to the formatted string: the 64-bit encoding of a float64 bit
pattern used by the publisher. -/
def encode_f64 (p : Nat) : List Bool := (pyBinFormat 64 p).map (fun c => c == '1')

/-- The 32-bit encoding of a float32 bit pattern used by the publisher for
the sine value (`f"{...:032b}"` then `[b == '1' for b in bstring]`). -/
def encode_f32 (p : Nat) : List Bool := (pyBinFormat 32 p).map (fun c => c == '1')

/-! ## Bit codec: decoding (app.py / client.py, convert_bits) -/

/-- `'1' if bit else '0'` from `convert_bits`. -/
def bitChar (b : Bool) : Char := if b then '1' else '0'

/-- `''.join(['1' if bit else '0' for bit in bits])` from `convert_bits`. -/
def joinBits (bs : List Bool) : List Char := bs.map bitChar

/-- Python `int(s, 2)` on a string of binary digit characters: raises
`ValueError` on the empty string (`none`), otherwise the base-2 value. -/
def pyIntBase2 (s : List Char) : Option Nat :=
  if s.isEmpty then none
  else some (s.foldl (fun a c => 2 * a + (if c = '1' then 1 else 0)) 0)

/-- `np.asarray(n, dtype=np.uint<width>).view(np.float<width>)` on a Python
int `n`: the identity on bit patterns below `2 ^ width`, an `OverflowError`
(`none`) beyond. -/
def npViewFloat (width n : Nat) : Option Nat :=
  if n < 2 ^ width then some n else none

/-- The time branch of `convert_bits`: join the bits into a string, parse it
in base 2, reinterpret as a float64 bit pattern. -/
def decode_f64 (bs : List Bool) : Option Nat :=
  (pyIntBase2 (joinBits bs)).bind (npViewFloat 64)

/-- The sine branch of `convert_bits`: as `decode_f64` at width 32. -/
def decode_f32 (bs : List Bool) : Option Nat :=
  (pyIntBase2 (joinBits bs)).bind (npViewFloat 32)

/-- `convert_bits(timeb, sinb)` from app.py and client.py: decodes the time
bits at width 64 and the sine bits at width 32; `none` when either branch
raises. -/
def convert_bits (timeb sinb : List Bool) : Option (Nat × Nat) :=
  match decode_f64 timeb, decode_f32 sinb with
  | some t, some s => some (t, s)
  | _, _ => none

/-- Spec definition (§4.1): concatenate the booleans into an unsigned
integer, most significant bit first.  Kept separate from the code path,
which goes through character strings, so that the two can be compared. -/
def msbFirstNat (bs : List Bool) : Nat :=
  bs.foldl (fun a b => 2 * a + (if b then 1 else 0)) 0

/-! ## Lemmas about the digit rendering -/

theorem binCharsAux_acc (fuel : Nat) : ∀ (n : Nat) (acc : List Char),
    binCharsAux fuel n acc = binCharsAux fuel n [] ++ acc := by
  induction fuel with
  | zero => intro n acc; simp [binCharsAux]
  | succ fuel ih =>
      intro n acc
      by_cases h : n < 2
      · simp [binCharsAux, h]
      · simp only [binCharsAux, if_neg h]
        rw [ih (n / 2) ((if n % 2 = 1 then '1' else '0') :: acc),
            ih (n / 2) [(if n % 2 = 1 then '1' else '0')]]
        simp

/-- Value of a character list under the base-2 digit fold used by
`pyIntBase2`, starting from accumulator 0. -/
def charsVal (s : List Char) : Nat :=
  s.foldl (fun a c => 2 * a + (if c = '1' then 1 else 0)) 0

theorem charsVal_append_digit (s : List Char) (c : Char) :
    charsVal (s ++ [c]) = 2 * charsVal s + (if c = '1' then 1 else 0) := by
  simp [charsVal, List.foldl_append]

theorem binCharsAux_val (fuel : Nat) : ∀ n : Nat, n < fuel →
    charsVal (binCharsAux fuel n []) = n := by
  induction fuel with
  | zero => intro n h; omega
  | succ fuel ih =>
      intro n h
      by_cases h2 : n < 2
      · interval_cases n <;> simp [binCharsAux, charsVal]
      · simp only [binCharsAux, if_neg h2]
        rw [binCharsAux_acc, charsVal_append_digit, ih (n / 2) (by omega)]
        rcases Nat.mod_two_eq_zero_or_one n with hm | hm <;>
          simp only [hm] <;> simp <;> omega

theorem binChars_val (n : Nat) : charsVal (binChars n) = n :=
  binCharsAux_val (n + 1) n (Nat.lt_succ_self n)

theorem binCharsAux_len (fuel : Nat) : ∀ n w : Nat, n < fuel → n < 2 ^ w →
    0 < w → (binCharsAux fuel n []).length ≤ w := by
  induction fuel with
  | zero => intro n w h; omega
  | succ fuel ih =>
      intro n w h hw w0
      by_cases h2 : n < 2
      · have : (binCharsAux (fuel + 1) n []).length = 1 := by
          simp [binCharsAux, h2]
        omega
      · have w2 : 2 ≤ w := by
          by_contra hlt
          have : w = 1 := by omega
          subst this
          simp at hw
          omega
        simp only [binCharsAux, if_neg h2]
        rw [binCharsAux_acc]
        have hdiv : n / 2 < 2 ^ (w - 1) := by
          have : 2 ^ w = 2 ^ (w - 1) * 2 := by
            rw [← pow_succ]
            congr 1
            omega
          omega
        have := ih (n / 2) (w - 1) (by omega) hdiv (by omega)
        simp only [List.length_append, List.length_cons, List.length_nil]
        omega

theorem binChars_len (n w : Nat) (hn : n < 2 ^ w) (hw : 0 < w) :
    (binChars n).length ≤ w :=
  binCharsAux_len (n + 1) n w (Nat.lt_succ_self n) hn hw

theorem binCharsAux_digits (fuel : Nat) : ∀ (n : Nat) (acc : List Char),
    (∀ c ∈ acc, c = '0' ∨ c = '1') →
    ∀ c ∈ binCharsAux fuel n acc, c = '0' ∨ c = '1' := by
  induction fuel with
  | zero => intro n acc hacc; simpa [binCharsAux] using hacc
  | succ fuel ih =>
      intro n acc hacc
      by_cases h : n < 2
      · simp only [binCharsAux, if_pos h]
        intro c hc
        rcases List.mem_cons.1 hc with hc | hc
        · subst hc
          by_cases h1 : n = 1 <;> simp [h1]
        · exact hacc c hc
      · simp only [binCharsAux, if_neg h]
        apply ih
        intro c hc
        rcases List.mem_cons.1 hc with hc | hc
        · subst hc
          by_cases h1 : n % 2 = 1 <;> simp [h1]
        · exact hacc c hc

theorem pyBinFormat_digits (width n : Nat) :
    ∀ c ∈ pyBinFormat width n, c = '0' ∨ c = '1' := by
  intro c hc
  rcases List.mem_append.1 hc with hc | hc
  · left; exact (List.eq_of_mem_replicate hc)
  · exact binCharsAux_digits (n + 1) n [] (by simp) c hc

theorem pyBinFormat_length (width n : Nat) (hn : n < 2 ^ width)
    (hw : 0 < width) : (pyBinFormat width n).length = width := by
  have := binChars_len n width hn hw
  simp only [pyBinFormat, List.length_append, List.length_replicate]
  omega

theorem charsVal_replicate_zero (k : Nat) :
    ∀ s : List Char, charsVal (List.replicate k '0' ++ s) = charsVal s := by
  induction k with
  | zero => intro s; simp
  | succ k ih =>
      intro s
      have : charsVal (List.replicate (k + 1) '0' ++ s)
          = List.foldl (fun a c => 2 * a + (if c = '1' then 1 else 0)) 0
              (List.replicate k '0' ++ s) := by
        simp [charsVal, List.replicate_succ]
      rw [this]
      exact ih s

theorem pyBinFormat_val (width n : Nat) : charsVal (pyBinFormat width n) = n := by
  rw [pyBinFormat, charsVal_replicate_zero, binChars_val]

/-! ## Round-trip lemmas -/

theorem joinBits_map_digits (s : List Char) (h : ∀ c ∈ s, c = '0' ∨ c = '1') :
    joinBits (s.map (fun c => c == '1')) = s := by
  induction s with
  | nil => rfl
  | cons c t ih =>
      have hc := h c (by simp)
      have ht : ∀ x ∈ t, x = '0' ∨ x = '1' := fun x hx => h x (by simp [hx])
      rcases hc with hc | hc <;> subst hc <;>
        simp [joinBits, bitChar] <;> simpa [joinBits] using ih ht

theorem pyIntBase2_format (w p : Nat) (hp : p < 2 ^ w) (hw : 0 < w) :
    pyIntBase2 (pyBinFormat w p) = some p := by
  have hlen := pyBinFormat_length w p hp hw
  have hne : (pyBinFormat w p).isEmpty = false := by
    cases hq : pyBinFormat w p with
    | nil => rw [hq] at hlen; simp at hlen; omega
    | cons c t => rfl
  rw [pyIntBase2, hne]
  simp only [Bool.false_eq_true, if_false]
  exact congrArg some (pyBinFormat_val w p)

theorem decode_f64_encode (p : Nat) (hp : p < 2 ^ 64) :
    decode_f64 (encode_f64 p) = some p := by
  rw [decode_f64, encode_f64,
    joinBits_map_digits _ (pyBinFormat_digits 64 p),
    pyIntBase2_format 64 p hp (by norm_num)]
  simp only [Option.some_bind, npViewFloat]
  rw [if_pos hp]

theorem decode_f32_encode (p : Nat) (hp : p < 2 ^ 32) :
    decode_f32 (encode_f32 p) = some p := by
  rw [decode_f32, encode_f32,
    joinBits_map_digits _ (pyBinFormat_digits 32 p),
    pyIntBase2_format 32 p hp (by norm_num)]
  simp only [Option.some_bind, npViewFloat]
  rw [if_pos hp]

/-! ## The decode path agrees with the MSB-first concatenation of the spec -/

theorem foldl_joinBits (bs : List Bool) : ∀ a : Nat,
    (joinBits bs).foldl (fun x c => 2 * x + (if c = '1' then 1 else 0)) a
      = bs.foldl (fun x b => 2 * x + (if b then 1 else 0)) a := by
  induction bs with
  | nil => intro a; rfl
  | cons b t ih =>
      intro a
      simp only [joinBits, List.map_cons, List.foldl_cons] at *
      cases b <;> simp only [bitChar] <;> simp <;> exact ih _

theorem charsVal_joinBits (bs : List Bool) :
    charsVal (joinBits bs) = msbFirstNat bs :=
  foldl_joinBits bs 0

theorem foldl_bits_lt (bs : List Bool) : ∀ a : Nat,
    bs.foldl (fun x b => 2 * x + (if b then 1 else 0)) a < (a + 1) * 2 ^ bs.length := by
  induction bs with
  | nil => intro a; simp
  | cons b t ih =>
      intro a
      have h := ih (2 * a + (if b then 1 else 0))
      have hb : (if b then 1 else 0) ≤ 1 := by cases b <;> simp
      simp only [List.foldl_cons, List.length_cons]
      calc t.foldl (fun x b => 2 * x + (if b then 1 else 0)) (2 * a + (if b then 1 else 0))
          < (2 * a + (if b then 1 else 0) + 1) * 2 ^ t.length := h
        _ ≤ (a + 1) * 2 ^ (t.length + 1) := by ring_nf; nlinarith [Nat.pos_pow_of_pos t.length (by norm_num : 0 < 2)]

theorem msbFirstNat_lt (bs : List Bool) : msbFirstNat bs < 2 ^ bs.length := by
  have := foldl_bits_lt bs 0
  simpa [msbFirstNat] using this

theorem joinBits_length (bs : List Bool) : (joinBits bs).length = bs.length := by
  simp [joinBits]

theorem decode_msb (w : Nat) (bs : List Bool) (hlen : bs.length = w) (hw : 0 < w) :
    (pyIntBase2 (joinBits bs)).bind (npViewFloat w) = some (msbFirstNat bs) := by
  have hne : (joinBits bs).isEmpty = false := by
    cases hq : joinBits bs with
    | nil =>
        have := joinBits_length bs
        rw [hq] at this
        simp at this
        omega
    | cons c t => rfl
  rw [pyIntBase2, hne]
  simp only [Bool.false_eq_true, if_false, Option.bind_some, Option.some_bind]
  have hval : charsVal (joinBits bs) = msbFirstNat bs := charsVal_joinBits bs
  have hlt : msbFirstNat bs < 2 ^ w := by
    have := msbFirstNat_lt bs
    rwa [hlen] at this
  show npViewFloat w (charsVal (joinBits bs)) = some (msbFirstNat bs)
  rw [hval, npViewFloat, if_pos hlt]

/-! ## Coil bank (spec §3 CoilBank; pymodbus sequential datastore)

Modelled from the spec: the pymodbus `ModbusSlaveContext` store behind
`context.setValues(fx, address, bits)` and the coil reads is not part of
this repository; per §3 it is an ordered array of boolean cells addressable
by zero-based offset and length.  We model it as a total map from offsets
to booleans. -/

/-- `context.setValues(1, address, values)`: overwrite the cells at
`[address, address + len)` with `values`, leaving every other cell. -/
def setValues (bank : Nat → Bool) (address : Nat) (values : List Bool) :
    Nat → Bool :=
  fun a =>
    if address ≤ a ∧ a < address + values.length then values.getD (a - address) false
    else bank a

/-- A coil read `(address, count)`: the `count` cells from `address`. -/
def getValues (bank : Nat → Bool) (address count : Nat) : List Bool :=
  (List.range count).map (fun i => bank (address + i))

/-- `update_coils` from server.py: encode the float64 time pattern `t` into
coils `[0, 64)`, then the float32 sine pattern `s` into coils `[64, 96)`. -/
def update_coils (bank : Nat → Bool) (t s : Nat) : Nat → Bool :=
  setValues (setValues bank 0 (encode_f64 t)) 64 (encode_f32 s)

theorem encode_f64_length (p : Nat) (hp : p < 2 ^ 64) :
    (encode_f64 p).length = 64 := by
  rw [encode_f64, List.length_map, pyBinFormat_length 64 p hp (by norm_num)]

theorem encode_f32_length (p : Nat) (hp : p < 2 ^ 32) :
    (encode_f32 p).length = 32 := by
  rw [encode_f32, List.length_map, pyBinFormat_length 32 p hp (by norm_num)]

theorem setValues_lt (bank : Nat → Bool) (address : Nat) (values : List Bool)
    (a : Nat) (h : a < address) : setValues bank address values a = bank a := by
  rw [setValues, if_neg]
  intro hc
  omega

theorem setValues_ge (bank : Nat → Bool) (address : Nat) (values : List Bool)
    (a : Nat) (h : address + values.length ≤ a) :
    setValues bank address values a = bank a := by
  rw [setValues, if_neg]
  intro hc
  omega

theorem getValues_setValues (bank : Nat → Bool) (address : Nat)
    (values : List Bool) (count : Nat) (h : values.length = count) :
    getValues (setValues bank address values) address count = values := by
  subst h
  apply List.ext_getElem
  · simp [getValues]
  · intro i h1 h2
    simp only [getValues, List.getElem_map, List.getElem_range]
    have hi : i < values.length := by simpa [getValues] using h2
    rw [setValues, if_pos (by omega)]
    simp only [Nat.add_sub_cancel_left]
    exact List.getD_eq_getElem values false hi

theorem getValues_update_low (bank : Nat → Bool) (t s : Nat) (ht : t < 2 ^ 64) :
    getValues (update_coils bank t s) 0 64 = encode_f64 t := by
  have hsame : getValues (update_coils bank t s) 0 64
      = getValues (setValues bank 0 (encode_f64 t)) 0 64 := by
    apply List.ext_getElem
    · simp [getValues]
    · intro i h1 h2
      have hi : i < 64 := by simpa [getValues] using h1
      simp only [getValues, List.getElem_map, List.getElem_range, update_coils]
      exact setValues_lt _ 64 _ (0 + i) (by omega)
  rw [hsame, getValues_setValues _ _ _ _ (encode_f64_length t ht)]

theorem getValues_update_high (bank : Nat → Bool) (t s : Nat) (hs : s < 2 ^ 32) :
    getValues (update_coils bank t s) 64 32 = encode_f32 s := by
  rw [update_coils, getValues_setValues _ _ _ _ (encode_f32_length s hs)]

/-- The IEEE-754 bit pattern of the float64 value 1700000000.5 = 1.f * 2^30
with biased exponent 1053 and 52-bit fraction 1252516353 * 2^21. -/
def timePattern : Nat := 1053 * 2 ^ 52 + 1252516353 * 2 ^ 21

/-! ## Claim theorems: the codec and the coil bank -/

/-- C1: for every finite float64 bit pattern (a natural below 2^64),
decoding the publisher 64-bit encoding from `update_coils` with the
`convert_bits` time branch yields exactly that pattern; likewise for every
float32 pattern at width 32.  This covers zero, negative zero (pattern
2^63), negative values and subnormals, all of which are just patterns
below the bound. -/
theorem claim_roundtrip (p q : Nat) (hp : p < 2 ^ 64) (hq : q < 2 ^ 32) :
    decode_f64 (encode_f64 p) = some p ∧ decode_f32 (encode_f32 q) = some q :=
  ⟨decode_f64_encode p hp, decode_f32_encode q hq⟩

theorem claim_roundtrip_witness :
    decode_f64 (encode_f64 (2 ^ 63)) = some (2 ^ 63) ∧
    decode_f32 (encode_f32 1) = some 1 :=
  claim_roundtrip (2 ^ 63) 1 (by norm_num) (by norm_num)

theorem convert_bits_full_width (tb sb : List Bool) (ht : tb.length = 64)
    (hs : sb.length = 32) :
    convert_bits tb sb = some (msbFirstNat tb, msbFirstNat sb) := by
  have h1 : decode_f64 tb = some (msbFirstNat tb) := by
    rw [decode_f64]; exact decode_msb 64 tb ht (by norm_num)
  have h2 : decode_f32 sb = some (msbFirstNat sb) := by
    rw [decode_f32]; exact decode_msb 32 sb hs (by norm_num)
  simp only [convert_bits, h1, h2]

/-- C2: on a 64-boolean list, `convert_bits` returns the float64 whose bit
pattern is the unsigned integer formed by concatenating the booleans most
significant bit first, and identically on the 32-boolean sine list: the
character-string parse of the code agrees with the MSB-first concatenation
in the spec. -/
theorem claim_msb_decode (tb sb : List Bool) (ht : tb.length = 64)
    (hs : sb.length = 32) :
    convert_bits tb sb = some (msbFirstNat tb, msbFirstNat sb) :=
  convert_bits_full_width tb sb ht hs

theorem claim_msb_decode_witness :
    convert_bits (List.replicate 64 true) (List.replicate 32 true)
      = some (msbFirstNat (List.replicate 64 true),
              msbFirstNat (List.replicate 32 true)) :=
  claim_msb_decode (List.replicate 64 true) (List.replicate 32 true)
    (by simp) (by simp)

/-- C3: for every float64 bit pattern, infinities and NaNs included (they
are just patterns below 2^64), the publisher encoding has exactly 64
booleans, and the 32-bit sine encoding exactly 32. -/
theorem claim_encode_width (p q : Nat) (hp : p < 2 ^ 64) (hq : q < 2 ^ 32) :
    (encode_f64 p).length = 64 ∧ (encode_f32 q).length = 32 :=
  ⟨encode_f64_length p hp, encode_f32_length q hq⟩

theorem claim_encode_width_witness :
    (encode_f64 (2047 * 2 ^ 52)).length = 64 ∧
    (encode_f32 (255 * 2 ^ 23)).length = 32 :=
  claim_encode_width (2047 * 2 ^ 52) (255 * 2 ^ 23) (by norm_num) (by norm_num)

/-- C4: the two coil writes performed by `update_coils` are isolated: the
float32 write at `[64, 96)` leaves every cell below 64 unchanged, and the
float64 write at `[0, 64)` leaves every cell in `[64, 96)` unchanged, for
every pair of encodable patterns. -/
theorem claim_region_isolation (bank : Nat → Bool) (t s a b : Nat)
    (ht : t < 2 ^ 64) (hs : s < 2 ^ 32) (ha : a < 64)
    (hb : 64 ≤ b ∧ b < 96) :
    setValues bank 64 (encode_f32 s) a = bank a ∧
    setValues bank 0 (encode_f64 t) b = bank b := by
  constructor
  · exact setValues_lt bank 64 _ a ha
  · apply setValues_ge
    rw [encode_f64_length t ht]
    omega

theorem claim_region_isolation_witness :
    setValues (fun _ => false) 64 (encode_f32 0) 0 = false ∧
    setValues (fun _ => false) 0 (encode_f64 0) 64 = false :=
  claim_region_isolation (fun _ => false) 0 0 0 64 (by norm_num) (by norm_num)
    (by norm_num) (by omega)

/-- C5: a publisher tick with clock value 1700000000.5 (float64 bit pattern
`timePattern`) and any float32 sine pattern, followed by the two coil reads
`(0, 64)` and `(64, 32)` and `convert_bits`, yields exactly that pair of
patterns. -/
theorem claim_end_to_end (bank : Nat → Bool) (t s : Nat)
    (ht : t = timePattern) (hs : s < 2 ^ 32) :
    convert_bits (getValues (update_coils bank t s) 0 64)
      (getValues (update_coils bank t s) 64 32) = some (t, s) := by
  subst ht
  have ht64 : timePattern < 2 ^ 64 := by norm_num [timePattern]
  rw [getValues_update_low bank timePattern s ht64,
      getValues_update_high bank timePattern s hs]
  simp only [convert_bits, decode_f64_encode timePattern ht64,
    decode_f32_encode s hs]

theorem claim_end_to_end_witness :
    convert_bits (getValues (update_coils (fun _ => false) timePattern 0) 0 64)
      (getValues (update_coils (fun _ => false) timePattern 0) 64 32)
      = some (timePattern, 0) :=
  claim_end_to_end (fun _ => false) timePattern 0 rfl (by norm_num)

/-- C7: the code evaluated at a malformed response.  A time list of a
single boolean (instead of 64) is not rejected by `convert_bits`: the
parse zero-extends it and returns a normal decoded pair — bit pattern 1,
the smallest positive float64 subnormal — rather than treating the wrong
bit count as a fatal error. -/
theorem claim_short_bits_decoded :
    convert_bits [true] (List.replicate 32 false) = some (1, 0) := by decide

/-! ## Logger handler state (app.py)

`app_log` starts with a single `StreamHandler`; `get_file_logger` attaches
a timestamped `FileHandler` when at most one handler is present, and
`drop_file_logger` removes every `FileHandler` unless only one handler is
attached.  We model the handler list explicitly; `ts` stands for the
`now.strftime(...)` string at the moment of the call. -/

inductive Handler
  | stream
  | file (name : String)
deriving DecidableEq

def isFileHandler : Handler → Bool
  | .file _ => true
  | .stream => false

/-- The handler list after module initialisation: the one stream handler. -/
def initHandlers : List Handler := [Handler.stream]

/-- `get_file_logger` from app.py: return unchanged when more than one
handler is attached, else attach a `FileHandler` named by the current
timestamp. -/
def get_file_logger (ts : String) (hs : List Handler) : List Handler :=
  if hs.length > 1 then hs else hs ++ [Handler.file (ts ++ ".log")]

/-- `drop_file_logger` from app.py: return unchanged when exactly one
handler is attached, else keep only the non-file handlers. -/
def drop_file_logger (hs : List Handler) : List Handler :=
  if hs.length = 1 then hs else hs.filter (fun h => !(isFileHandler h))

inductive LogOp
  | get (ts : String)
  | drop

def applyLogOp (hs : List Handler) : LogOp → List Handler
  | .get ts => get_file_logger ts hs
  | .drop => drop_file_logger hs

/-- The handler list after a sequence of `get_file_logger` /
`drop_file_logger` calls starting from the initial state. -/
def runLogOps (ops : List LogOp) : List Handler := ops.foldl applyLogOp initHandlers

/-- Every reachable handler list is the stream handler alone or the stream
handler followed by one file handler. -/
def loggerInv (hs : List Handler) : Prop :=
  hs = [Handler.stream] ∨ ∃ n, hs = [Handler.stream, Handler.file n]

theorem loggerInv_get (ts : String) (hs : List Handler) (h : loggerInv hs) :
    loggerInv (get_file_logger ts hs) := by
  rcases h with h | ⟨n, h⟩ <;> subst h
  · right
    exact ⟨ts ++ ".log", by simp [get_file_logger]⟩
  · right
    exact ⟨n, by simp [get_file_logger]⟩

theorem loggerInv_drop (hs : List Handler) (h : loggerInv hs) :
    loggerInv (drop_file_logger hs) := by
  rcases h with h | ⟨n, h⟩ <;> subst h
  · left; simp [drop_file_logger]
  · left; simp [drop_file_logger, isFileHandler]

theorem loggerInv_run (ops : List LogOp) : loggerInv (runLogOps ops) := by
  have main : ∀ (l : List LogOp) (hs : List Handler), loggerInv hs →
      loggerInv (l.foldl applyLogOp hs) := by
    intro l
    induction l with
    | nil => intro hs h; exact h
    | cons op t ih =>
        intro hs h
        apply ih
        cases op with
        | get ts => exact loggerInv_get ts hs h
        | drop => exact loggerInv_drop hs h
  exact main ops initHandlers (Or.inl rfl)

/-- `reset_log` from app.py: the GET /reset handler runs
`drop_file_logger` through its dependency and returns the empty object
(modelled as the empty association list). -/
def reset_log (hs : List Handler) : List Handler × List (String × String) :=
  (drop_file_logger hs, [])

/-- C10: from the initial single-stream-handler state, every sequence of
`get_file_logger` and `drop_file_logger` calls keeps at most one file
handler attached and keeps the stream handler; once a file handler exists
a further `get_file_logger` is the identity (so a second call right after
a first changes nothing), and `drop_file_logger` removes every file
handler while keeping the stream handler. -/
theorem claim_logger_invariant (ops : List LogOp) (ts1 ts2 : String) :
    (runLogOps ops).countP isFileHandler ≤ 1 ∧
    Handler.stream ∈ runLogOps ops ∧
    get_file_logger ts2 (get_file_logger ts1 (runLogOps ops))
      = get_file_logger ts1 (runLogOps ops) ∧
    (drop_file_logger (runLogOps ops)).countP isFileHandler = 0 ∧
    Handler.stream ∈ drop_file_logger (runLogOps ops) := by
  rcases loggerInv_run ops with h | ⟨n, h⟩ <;> rw [h] <;>
    refine ⟨?_, ?_, ?_, ?_, ?_⟩ <;>
    simp [get_file_logger, drop_file_logger, isFileHandler, List.countP_cons]

/-- C9: GET /reset always answers with the empty object, and afterwards the
logger holds no file handler, so the next `get_file_logger` call attaches a
fresh file handler named by the timestamp of that later call. -/
theorem claim_reset_log (ops : List LogOp) (ts : String) :
    (reset_log (runLogOps ops)).2 = [] ∧
    (reset_log (runLogOps ops)).1.countP isFileHandler = 0 ∧
    get_file_logger ts (reset_log (runLogOps ops)).1
      = (reset_log (runLogOps ops)).1 ++ [Handler.file (ts ++ ".log")] := by
  rcases loggerInv_run ops with h | ⟨n, h⟩ <;> rw [reset_log, h] <;>
    refine ⟨rfl, ?_, ?_⟩ <;>
    simp [get_file_logger, drop_file_logger, isFileHandler, List.countP_cons]

/-! ## Relay layer (app.py, get_data and the websocket loop)

The transport outcome of one read cycle is modelled explicitly: either
both `read_coils` calls answered with bit lists, or the awaited call
raised.  Per §7 a transport-gone fault surfaces as an `AttributeError`
whose message is one of the two `NoneType` messages asserted by the code,
and a read timeout as `asyncio.TimeoutError`. -/

inductive ReadOutcome
  | success (timeBits sinBits : List Bool)
  | attrError (msg : String)
  | timeoutError

def attrMsgWrite : String := "\x27NoneType\x27 object has no attribute \x27write\x27"

def attrMsgRead : String := "\x27NoneType\x27 object has no attribute \x27read_coils\x27"

/-- Result of one run of `get_data`: the JSON pair, a raised
`HTTPException`, or an exception the handler does not catch. -/
inductive PyOutcome
  | ok (x y : Nat)
  | httpError (statusCode : Nat) (detail : String)
  | uncaught (excName : String)

/-- `get_data` from app.py: decode a successful cycle into the response
pair; turn a transport-gone `AttributeError` (after the message assert)
and a `TimeoutError` into `HTTPException(500, ...)`; anything else —
anAttributeError with an unexpected message failing the assert, or a
decode error from `convert_bits` — propagates uncaught. -/
def get_data : ReadOutcome → PyOutcome
  | .success tb sb =>
      match convert_bits tb sb with
      | some (t, s) => .ok t s
      | none => .uncaught "decode"
  | .attrError msg =>
      if msg = attrMsgWrite ∨ msg = attrMsgRead then
        .httpError 500 "AsyncModbusTCPClient AttributeError exception raised"
      else .uncaught "AssertionError"
  | .timeoutError => .httpError 500 "asyncio.TimeoutError exception raised"

/-- The fault taxonomy of §7 plus well-formed success: the cycle either
succeeded with full-width bit lists, faulted transport-gone (one of the
two asserted messages), or timed out. -/
def transportOk : ReadOutcome → Prop
  | .success tb sb => tb.length = 64 ∧ sb.length = 32
  | .attrError msg => msg = attrMsgWrite ∨ msg = attrMsgRead
  | .timeoutError => True

theorem get_data_total (o : ReadOutcome) (h : transportOk o) :
    (∃ x y, get_data o = PyOutcome.ok x y) ∨
    get_data o
      = PyOutcome.httpError 500 "AsyncModbusTCPClient AttributeError exception raised" ∨
    get_data o = PyOutcome.httpError 500 "asyncio.TimeoutError exception raised" := by
  cases o with
  | success tb sb =>
      obtain ⟨ht, hs⟩ := h
      left
      exact ⟨msbFirstNat tb, msbFirstNat sb, by
        simp only [get_data, convert_bits_full_width tb sb ht hs]⟩
  | attrError msg =>
      right; left
      simp only [get_data]
      rw [if_pos (show msg = attrMsgWrite ∨ msg = attrMsgRead from h)]
  | timeoutError =>
      right; right
      rfl

/-- C6: for every read cycle whose outcome is in the transport fault
taxonomy — both coil reads succeeded with full-width bit lists, the
connection was gone (`AttributeError` with one of the two asserted
`NoneType` messages), or the read timed out — `get_data` either returns the
decoded pair (the 200 response) or raises `HTTPException(500, d)` where `d`
is one of the two short classification strings; in particular no raw
transport exception and no uncaught exception escapes `get_data`. -/
theorem claim_get_data_errors (o : ReadOutcome) (h : transportOk o) :
    (∃ x y, get_data o = PyOutcome.ok x y) ∨
    get_data o
      = PyOutcome.httpError 500 "AsyncModbusTCPClient AttributeError exception raised" ∨
    get_data o = PyOutcome.httpError 500 "asyncio.TimeoutError exception raised" :=
  get_data_total o h

theorem claim_get_data_errors_witness :
    (∃ x y, get_data ReadOutcome.timeoutError = PyOutcome.ok x y) ∨
    get_data ReadOutcome.timeoutError
      = PyOutcome.httpError 500 "AsyncModbusTCPClient AttributeError exception raised" ∨
    get_data ReadOutcome.timeoutError
      = PyOutcome.httpError 500 "asyncio.TimeoutError exception raised" :=
  claim_get_data_errors ReadOutcome.timeoutError True.intro

/-! ## The websocket command loop (app.py, websocket_endpoint) -/

/-- A JSON payload sent back over the websocket. -/
inductive Payload
  | dataObj (x y : Nat)
  | errSentinel (now : Nat)
  | emptyObj
deriving DecidableEq

/-- Effect of handling one received websocket message: the replies sent,
whether the loop breaks and closes the socket, the logger handlers after
the message, and whether an uncaught exception escaped the handler. -/
structure WsStep where
  replies : List Payload
  closed : Bool
  handlers : List Handler
  crashed : Bool
deriving DecidableEq

/-- One iteration of the `while True` loop of `websocket_endpoint`:
`"get"` replies with the `get_data` pair or, when it raised
`HTTPException`, with the error sentinel carrying the current time;
`"reset"` drops the file handler, reattaches a fresh one and replies with
the empty object; `"close"` breaks the loop so the socket is closed with
no reply; any other method neither replies nor closes. -/
def websocket_step (method : String) (o : ReadOutcome) (now : Nat)
    (ts : String) (hs : List Handler) : WsStep :=
  if method = "get" then
    match get_data o with
    | .ok x y => ⟨[Payload.dataObj x y], false, hs, false⟩
    | .httpError _ _ => ⟨[Payload.errSentinel now], false, hs, false⟩
    | .uncaught _ => ⟨[], false, hs, true⟩
  else if method = "reset" then
    ⟨[Payload.emptyObj], false, get_file_logger ts (drop_file_logger hs), false⟩
  else if method = "close" then
    ⟨[], true, hs, false⟩
  else
    ⟨[], false, hs, false⟩

/-- C8: in the websocket loop, a `"get"` message produces exactly one
reply — the data pair or the error sentinel with the current time — and
leaves the connection open; `"reset"` replies with the empty object, leaves
the connection open and replaces the session file handler with a fresh one;
`"close"` closes the socket with no reply; any other method value produces
no reply and leaves the connection open. -/
theorem claim_websocket_methods (o : ReadOutcome) (now : Nat) (ts : String)
    (hs : List Handler) (m : String) (ho : transportOk o)
    (hinv : loggerInv hs) (hm : m ≠ "get" ∧ m ≠ "reset" ∧ m ≠ "close") :
    ((∃ x y, websocket_step "get" o now ts hs
        = ⟨[Payload.dataObj x y], false, hs, false⟩) ∨
      websocket_step "get" o now ts hs
        = ⟨[Payload.errSentinel now], false, hs, false⟩) ∧
    websocket_step "reset" o now ts hs
      = ⟨[Payload.emptyObj], false,
          [Handler.stream, Handler.file (ts ++ ".log")], false⟩ ∧
    websocket_step "close" o now ts hs = ⟨[], true, hs, false⟩ ∧
    websocket_step m o now ts hs = ⟨[], false, hs, false⟩ := by
  refine ⟨?_, ?_, ?_, ?_⟩
  · rcases get_data_total o ho with ⟨x, y, hxy⟩ | hd | hd
    · left; exact ⟨x, y, by simp [websocket_step, hxy]⟩
    · right; simp [websocket_step, hd]
    · right; simp [websocket_step, hd]
  · have hdrop : drop_file_logger hs = [Handler.stream] := by
      rcases hinv with h | ⟨n, h⟩ <;> subst h <;>
        simp [drop_file_logger, isFileHandler]
    simp [websocket_step, hdrop, get_file_logger]
  · simp [websocket_step]
  · obtain ⟨h1, h2, h3⟩ := hm
    simp [websocket_step, h1, h2, h3]

theorem claim_websocket_methods_witness :
    ((∃ x y, websocket_step "get" ReadOutcome.timeoutError 0 "t" initHandlers
        = ⟨[Payload.dataObj x y], false, initHandlers, false⟩) ∨
      websocket_step "get" ReadOutcome.timeoutError 0 "t" initHandlers
        = ⟨[Payload.errSentinel 0], false, initHandlers, false⟩) ∧
    websocket_step "reset" ReadOutcome.timeoutError 0 "t" initHandlers
      = ⟨[Payload.emptyObj], false,
          [Handler.stream, Handler.file ("t" ++ ".log")], false⟩ ∧
    websocket_step "close" ReadOutcome.timeoutError 0 "t" initHandlers
      = ⟨[], true, initHandlers, false⟩ ∧
    websocket_step "ping" ReadOutcome.timeoutError 0 "t" initHandlers
      = ⟨[], false, initHandlers, false⟩ :=
  claim_websocket_methods ReadOutcome.timeoutError 0 "t" initHandlers "ping"
    True.intro (Or.inl rfl) ⟨by decide, by decide, by decide⟩
